import Mathlib

/-!
Verification development for the artifact acquisition pipeline of
`packages/eas-shared/src/download.ts`: bundle location, cache-directory
naming, the download/extract orchestrator, the two-tier tar extractor,
and the throttled progress tracker. Each TypeScript function is given a
shallow embedding as an executable Lean definition; effects (filesystem,
network, subprocess, logging) are made explicit as state or trace values.
-/

/-- Models `path.join(a, b)` for the relative-path joins used in
`download.ts` (no normalization is needed for the joins performed there). -/
def pathJoin (a b : String) : String := a ++ "/" ++ b

/-- Models JavaScript `String.prototype.endsWith`: `suffix2` is a suffix of
`s` (on the character sequence). -/
def endsWithStr (s suffix2 : String) : Bool := decide (suffix2.data <:+ s.data)

/-- Models the `fast-glob` pattern `./**/*.(apk|app|ipa)` used by
`getAppPathAsync`: an entry (file or directory, `onlyFiles: false`) matches
when its path ends in `.apk`, `.app` or `.ipa`. -/
def matchesApplicationExtension (p : String) : Bool :=
  endsWithStr p (".apk") || endsWithStr p (".app") || endsWithStr p (".ipa")

/-- Models one element of `MultipleAppsInTarballErrorDetails.apps`:
a `name`/`path` record for a candidate bundle. -/
structure AppCandidate where
  name : String
  path : String
deriving Repr, DecidableEq

/-- Models the two failure modes of `getAppPathAsync`: the generic
`Error('Did not find any installable apps inside tarball.')` and the
distinguished `InternalError(code, message, details)` carrying the
candidate list. -/
inductive LocateError where
  | bundleNotFound
  | internalError (code : String) (apps : List AppCandidate)
deriving Repr, DecidableEq

/-- Models `getAppPathAsync(outputDir, '(apk|app|ipa)')`. The directory is
represented by the list of relative entry paths `glob` would enumerate
under it; the glob filter keeps the entries matching the extension
pattern. Zero matches throw the generic error, one match returns its path
joined onto `outputDir`, several matches throw
`InternalError('MULTIPLE_APPS_IN_TARBALL', ...)` with one candidate per
match. -/
def getAppPathAsync (outputDir : String) (entries : List String) :
    Except LocateError String :=
  match entries.filter matchesApplicationExtension with
  | [] => Except.error LocateError.bundleNotFound
  | [p] => Except.ok (pathJoin outputDir p)
  | ps => Except.error (LocateError.internalError ("MULTIPLE_APPS_IN_TARBALL")
      (ps.map (fun p => ⟨p, pathJoin outputDir p⟩)))

/-! Cache-directory naming. `downloadAndMaybeExtractAppAsync` computes
`encodeURIComponent(url.replace(/^[^:]+:\/\//, ''))`. `encodeURIComponent`
percent-encodes the UTF-8 byte sequence of its argument, so the mapping is
modeled on byte sequences (`List Nat`, each element < 256). -/

/-- Helper for `stripScheme`: scan to the first colon (byte 58) and
require it to be followed by two slashes (byte 47); return the remainder
after `://` when found, `none` otherwise. Since `[^:]` cannot cross a
colon, the regex `^[^:]+:\/\//` can only anchor its `://` at the first
colon of the string. -/
def afterSchemeBytes (l : List Nat) : Option (List Nat) :=
  match l.dropWhile (fun b => decide (b ≠ 58)) with
  | b :: r1 :: r2 :: r => if b = 58 ∧ r1 = 47 ∧ r2 = 47 then some r else none
  | _ => none

/-- Models `url.replace(/^[^:]+:\/\//, '')`: drop a leading scheme prefix
(one or more non-colon bytes followed by `://`) when present, otherwise
return the input unchanged. -/
def stripScheme : List Nat → List Nat
  | [] => []
  | b :: rest =>
    if b = 58 then b :: rest
    else
      match afterSchemeBytes (b :: rest) with
      | some r => r
      | none => b :: rest

/-- Bytes left unescaped by `encodeURIComponent`:
`A-Z a-z 0-9 - _ . ! ~ * ' ( )`. -/
def isUnreservedByte (b : Nat) : Bool :=
  decide ((65 ≤ b ∧ b ≤ 90) ∨ (97 ≤ b ∧ b ≤ 122) ∨ (48 ≤ b ∧ b ≤ 57) ∨
    b = 45 ∨ b = 95 ∨ b = 46 ∨ b = 33 ∨ b = 126 ∨ b = 42 ∨ b = 39 ∨
    b = 40 ∨ b = 41)

/-- ASCII code of the uppercase hexadecimal digit for `n < 16`. -/
def hexDigitByte (n : Nat) : Nat := if n < 10 then 48 + n else 55 + n

/-- Percent-encoding of a single byte: unreserved bytes pass through,
every other byte becomes `%XX` (byte 37 is `%`). -/
def encodeByte (b : Nat) : List Nat :=
  if isUnreservedByte b then [b]
  else [37, hexDigitByte (b / 16), hexDigitByte (b % 16)]

/-- Models `encodeURIComponent` on the UTF-8 byte sequence of the input. -/
def encodeURIComponent (bytes : List Nat) : List Nat :=
  (bytes.map encodeByte).flatten

/-- Models the cache-directory name computed at the top of
`downloadAndMaybeExtractAppAsync`:
`encodeURIComponent(url.replace(/^[^:]+:\/\//, ''))`. -/
def resolveCacheName (url : List Nat) : List Nat :=
  encodeURIComponent (stripScheme url)

/-- Value of an ASCII hexadecimal digit used by percent-escapes
(decimal digits and uppercase `A`-`F`), `none` otherwise. -/
def hexVal (c : Nat) : Option Nat :=
  if 48 ≤ c ∧ c ≤ 57 then some (c - 48)
  else if 65 ≤ c ∧ c ≤ 70 then some (c - 55)
  else none

/-- Decoder for the image of `encodeURIComponent`, used to establish that
the encoding loses no information. -/
def decodeURIComponent : List Nat → Option (List Nat)
  | [] => some []
  | b :: rest =>
    if b = 37 then
      match rest with
      | h1 :: h2 :: r =>
        match hexVal h1, hexVal h2 with
        | some a, some b2 =>
          (decodeURIComponent r).map (fun l => (16 * a + b2) :: l)
        | _, _ => none
      | _ => none
    else (decodeURIComponent rest).map (fun l => b :: l)

/-- UTF-8 (or ASCII) byte sequence of a string whose characters are all
in the Basic Latin range; used to write concrete URLs as byte lists. -/
def asciiBytes (s : String) : List Nat := s.data.map (fun c => c.toNat)

theorem hexVal_hexDigitByte (n : Nat) (h : n < 16) :
    hexVal (hexDigitByte n) = some n := by
  have key : ∀ m, m < 16 → hexVal (hexDigitByte m) = some m := by decide
  exact key n h

theorem isUnreservedByte_ne_37 (b : Nat) (h : isUnreservedByte b = true) :
    b ≠ 37 := by
  unfold isUnreservedByte at h
  have := of_decide_eq_true h
  omega

theorem decodeURIComponent_cons_ne (b : Nat) (rest : List Nat) (h : b ≠ 37) :
    decodeURIComponent (b :: rest) =
      (decodeURIComponent rest).map (fun l => b :: l) := by
  conv_lhs => unfold decodeURIComponent
  rw [if_neg h]

theorem decodeURIComponent_escape (h1 h2 : Nat) (r : List Nat) (a b2 : Nat)
    (ha : hexVal h1 = some a) (hb : hexVal h2 = some b2) :
    decodeURIComponent (37 :: h1 :: h2 :: r) =
      (decodeURIComponent r).map (fun l => (16 * a + b2) :: l) := by
  conv_lhs => unfold decodeURIComponent
  rw [if_pos rfl]
  dsimp only
  rw [ha, hb]

theorem encodeURIComponent_cons (b : Nat) (rest : List Nat) :
    encodeURIComponent (b :: rest) = encodeByte b ++ encodeURIComponent rest := by
  simp [encodeURIComponent]

theorem decode_encodeByte (b : Nat) (hb : b < 256) (rest : List Nat) :
    decodeURIComponent (encodeByte b ++ rest) =
      (decodeURIComponent rest).map (fun l => b :: l) := by
  unfold encodeByte
  by_cases h : isUnreservedByte b = true
  · rw [if_pos h]
    simp only [List.cons_append, List.nil_append]
    exact decodeURIComponent_cons_ne b rest (isUnreservedByte_ne_37 b h)
  · rw [if_neg h]
    simp only [List.cons_append, List.nil_append]
    rw [decodeURIComponent_escape _ _ _ _ _
      (hexVal_hexDigitByte (b / 16) (by omega))
      (hexVal_hexDigitByte (b % 16) (by omega))]
    have : 16 * (b / 16) + b % 16 = b := by omega
    rw [this]

theorem decode_encodeURIComponent (bytes : List Nat)
    (hb : ∀ b ∈ bytes, b < 256) :
    decodeURIComponent (encodeURIComponent bytes) = some bytes := by
  induction bytes with
  | nil => rfl
  | cons b rest ih =>
    have hb0 : b < 256 := hb b (List.mem_cons_self b rest)
    have hrest : ∀ x ∈ rest, x < 256 := fun x hx => hb x (List.mem_cons_of_mem b hx)
    rw [encodeURIComponent_cons, decode_encodeByte b hb0, ih hrest]
    rfl

theorem encodeURIComponent_inj (b1 b2 : List Nat)
    (h1 : ∀ b ∈ b1, b < 256) (h2 : ∀ b ∈ b2, b < 256)
    (he : encodeURIComponent b1 = encodeURIComponent b2) : b1 = b2 := by
  have d1 := decode_encodeURIComponent b1 h1
  have d2 := decode_encodeURIComponent b2 h2
  rw [he, d2] at d1
  exact (Option.some.inj d1).symm

theorem afterSchemeBytes_suffix (l r : List Nat)
    (h : afterSchemeBytes l = some r) : r <:+ l := by
  unfold afterSchemeBytes at h
  have hdw : l.dropWhile (fun b => decide (b ≠ 58)) <:+ l :=
    List.dropWhile_suffix _
  rcases hd : l.dropWhile (fun b => decide (b ≠ 58)) with _ | ⟨b, _ | ⟨r1, _ | ⟨r2, rr⟩⟩⟩ <;>
    rw [hd] at h <;> dsimp only at h
  · exact absurd h (by simp)
  · exact absurd h (by simp)
  · exact absurd h (by simp)
  · by_cases hc : b = 58 ∧ r1 = 47 ∧ r2 = 47
    · rw [if_pos hc] at h
      have hr : r = rr := (Option.some.inj h).symm
      subst hr
      rw [hd] at hdw
      exact List.IsSuffix.trans ⟨[b, r1, r2], rfl⟩ hdw
    · rw [if_neg hc] at h
      exact absurd h (by simp)

theorem stripScheme_suffix (url : List Nat) : stripScheme url <:+ url := by
  match url with
  | [] => exact List.suffix_refl []
  | c :: rest =>
    unfold stripScheme
    dsimp only
    by_cases hc : c = 58
    · rw [if_pos hc]
    · rw [if_neg hc]
      rcases ha : afterSchemeBytes (c :: rest) with _ | r

      · exact List.suffix_refl _
      · exact afterSchemeBytes_suffix _ _ ha

theorem stripScheme_mem (url : List Nat) (b : Nat)
    (h : b ∈ stripScheme url) : b ∈ url :=
  (stripScheme_suffix url).subset h

/-- C1: the bundle locator `getAppPathAsync`, applied to any extracted
output directory, satisfies the trichotomy: zero entries matching the
apk/app/ipa extension pattern fail with the generic
no-installable-app error; exactly one match returns that match joined to
the output directory; two or more matches fail with the distinguished
`InternalError('MULTIPLE_APPS_IN_TARBALL')` whose candidate list has one
name/path entry per match, so its length equals the number of matches. -/
theorem C1_getAppPathAsync_trichotomy (outputDir : String) (entries : List String) :
    ((entries.filter matchesApplicationExtension).length = 0 →
      getAppPathAsync outputDir entries = Except.error LocateError.bundleNotFound) ∧
    (∀ p, entries.filter matchesApplicationExtension = [p] →
      getAppPathAsync outputDir entries = Except.ok (pathJoin outputDir p)) ∧
    (2 ≤ (entries.filter matchesApplicationExtension).length →
      getAppPathAsync outputDir entries =
        Except.error (LocateError.internalError ("MULTIPLE_APPS_IN_TARBALL")
          ((entries.filter matchesApplicationExtension).map
            (fun p => ⟨p, pathJoin outputDir p⟩))) ∧
      ((entries.filter matchesApplicationExtension).map
        (fun p => (⟨p, pathJoin outputDir p⟩ : AppCandidate))).length =
        (entries.filter matchesApplicationExtension).length) := by
  refine ⟨?_, ?_, ?_⟩
  · intro h0
    have hnil : entries.filter matchesApplicationExtension = [] :=
      List.length_eq_zero.mp h0
    unfold getAppPathAsync
    rw [hnil]
  · intro p hp
    unfold getAppPathAsync
    rw [hp]
  · intro h2
    rcases hf : entries.filter matchesApplicationExtension with _ | ⟨a, _ | ⟨b, rest⟩⟩
    · rw [hf] at h2; simp at h2
    · rw [hf] at h2; simp at h2
    · constructor
      · unfold getAppPathAsync
        rw [hf]
      · exact List.length_map _ _

/-- Witness for C1 at a directory holding two matches and one non-match. -/
theorem C1_getAppPathAsync_trichotomy_witness :
    getAppPathAsync ("out") ([("a.apk"), ("b.ipa"), ("readme.txt")]) =
      Except.error (LocateError.internalError ("MULTIPLE_APPS_IN_TARBALL")
        [⟨("a.apk"), ("out/a.apk")⟩, ⟨("b.ipa"), ("out/b.ipa")⟩]) := by
  have h := (C1_getAppPathAsync_trichotomy ("out")
    ([("a.apk"), ("b.ipa"), ("readme.txt")])).2.2 (by decide)
  exact h.1.trans (by rfl)

/-- C9 counterexample: the claim that two distinct URLs never resolve to
the same cache directory name fails: `http://example.com` and
`https://example.com` are distinct URLs whose scheme-stripped forms agree,
so they resolve to the same cache directory name. -/
theorem C9_resolveCacheName_not_injective :
    resolveCacheName (asciiBytes ("http://example.com")) =
      resolveCacheName (asciiBytes ("https://example.com")) ∧
    asciiBytes ("http://example.com") ≠ asciiBytes ("https://example.com") := by
  exact ⟨by rfl, by decide⟩

/-- C9 (amended): the mapping from a source URL to its cache directory
name (strip the scheme prefix, then percent-encode the remainder) is
deterministic — it is a function of the URL — and two URLs resolve to the
same cache directory name exactly when their scheme-stripped forms are
equal; in particular URLs whose scheme-stripped remainders differ never
collide, while URLs differing only in their scheme prefix do collide. -/
theorem C9_resolveCacheName_collision_iff (u1 u2 : List Nat)
    (h1 : ∀ b ∈ u1, b < 256) (h2 : ∀ b ∈ u2, b < 256) :
    resolveCacheName u1 = resolveCacheName u2 ↔
      stripScheme u1 = stripScheme u2 := by
  constructor
  · intro he
    exact encodeURIComponent_inj _ _
      (fun b hb => h1 b (stripScheme_mem u1 b hb))
      (fun b hb => h2 b (stripScheme_mem u2 b hb)) he
  · intro hs
    unfold resolveCacheName
    rw [hs]

/-- Witness for C9 (amended): two URLs with distinct scheme-stripped
remainders get distinct cache directory names. -/
theorem C9_resolveCacheName_collision_iff_witness :
    resolveCacheName (asciiBytes ("https://host/a")) ≠
      resolveCacheName (asciiBytes ("https://host/b")) := by
  intro he
  have h := (C9_resolveCacheName_collision_iff
    (asciiBytes ("https://host/a")) (asciiBytes ("https://host/b"))
    (by decide) (by decide)).mp he
  exact absurd h (by decide)

/-! Orchestrator model. `downloadAndMaybeExtractAppAsync` composes the
cache lookup, the download, the tar extraction and the bundle locator.
The filesystem cache is modeled as an association list from cache
directory name to the list of relative entry paths inside that
directory; the network and the archive contents are oracles (successful
transfers — download failures are modeled separately for C8), and the
random `uuidv4()` value is a parameter. `fetchCount` counts network
requests and `extractCount` counts tar extractions. -/

/-- On-disk downloads cache: directory name to relative entries below it. -/
abbrev CacheFS := List (String × List String)

/-- Lookup of a cache directory, modeling `fs.pathExists(outputDir)`
(`some` = directory present with these entries). -/
def CacheFS.find (fs : CacheFS) (name : String) : Option (List String) :=
  match fs with
  | [] => none
  | (k, v) :: rest => if k = name then some v else CacheFS.find rest name

/-- Overwrite or create a cache directory with the given entries. -/
def CacheFS.store (fs : CacheFS) (name : String) (v : List String) : CacheFS :=
  (name, v) :: fs.filter (fun kv => kv.1 ≠ name)

/-- Observable state threaded through a pipeline invocation. -/
structure PipelineState where
  fs : CacheFS
  fetchCount : Nat
  extractCount : Nat
deriving Repr, DecidableEq

/-- Models `getTmpDirectory()` as a fixed process-wide directory. -/
def getTmpDirectory : String := "/tmp"

/-- Models `_downloadsCacheDirectory()`:
`path.join(getTmpDirectory(), 'downloads-cache')`. -/
def downloadsCacheDirectory : String :=
  pathJoin getTmpDirectory ("downloads-cache")

/-- Cache directory name for a URL, as a `String` (the byte-level
`resolveCacheName` rendered back to characters). -/
def cacheDirName (url : String) : String :=
  String.mk ((resolveCacheName (asciiBytes url)).map (fun b => Char.ofNat b))

/-- Models lines 139-168 of `downloadAndMaybeExtractAppAsync`: the fresh
download taken on a cache miss (or on a swallowed locate failure), after
`fs.promises.mkdir(outputDir, { recursive: true })`. `oldEntries` is
whatever the cache directory already held (extraction adds entries on top
of it). -/
def freshDownload (archiveContents : String → List String) (uuid : String)
    (st : PipelineState) (url : String) (oldEntries : List String) :
    Except LocateError String × PipelineState :=
  let name := cacheDirName url
  let outputDir := pathJoin downloadsCacheDirectory name
  if endsWithStr url ("apk") then
    let apkFile := uuid ++ ".apk"
    (Except.ok (pathJoin outputDir apkFile),
     { fs := st.fs.store name (oldEntries ++ [apkFile]),
       fetchCount := st.fetchCount + 1,
       extractCount := st.extractCount })
  else
    let newEntries := oldEntries ++ archiveContents url
    (getAppPathAsync outputDir newEntries,
     { fs := st.fs.store name newEntries,
       fetchCount := st.fetchCount + 1,
       extractCount := st.extractCount + 1 })

/-- Models `downloadAndMaybeExtractAppAsync(url)`.
`archiveContents url` is the list of relative entries that downloading
and tar-extracting the archive at `url` deposits in the output
directory; `uuid` is the `uuidv4()` value used for the direct-download
file name. Control flow mirrors the source: if the cache directory
exists, try to locate a bundle in it; rethrow `InternalError`, swallow
any other locate error and fall through to a fresh download. URLs ending
in the bare suffix `apk` download directly to `<uuid>.apk` with no
extraction; all other URLs download an archive, extract it into the
cache directory and locate the bundle there. -/
def downloadAndMaybeExtractAppAsync (archiveContents : String → List String)
    (uuid : String) (st : PipelineState) (url : String) :
    Except LocateError String × PipelineState :=
  let name := cacheDirName url
  let outputDir := pathJoin downloadsCacheDirectory name
  match st.fs.find name with
  | some entries =>
    match getAppPathAsync outputDir entries with
    | Except.ok p => (Except.ok p, st)
    | Except.error (LocateError.internalError c apps) =>
      (Except.error (LocateError.internalError c apps), st)
    | Except.error LocateError.bundleNotFound =>
      freshDownload archiveContents uuid st url entries
  | none => freshDownload archiveContents uuid st url []

theorem CacheFS.find_store (fs : CacheFS) (name : String) (v : List String) :
    (fs.store name v).find name = some v := by
  unfold CacheFS.store CacheFS.find
  rw [if_pos rfl]

theorem endsWithStr_append (a b : String) : endsWithStr (a ++ b) b = true := by
  simp [endsWithStr, String.data_append, List.suffix_append]

theorem matchesApplicationExtension_apk (uuid : String) :
    matchesApplicationExtension (uuid ++ ".apk") = true := by
  unfold matchesApplicationExtension
  rw [endsWithStr_append]
  rfl

theorem getAppPathAsync_nil_filter (d : String) (es : List String)
    (h : getAppPathAsync d es = Except.error LocateError.bundleNotFound) :
    es.filter matchesApplicationExtension = [] := by
  rcases hf : es.filter matchesApplicationExtension with _ | ⟨a, _ | ⟨b, r⟩⟩
  · rfl
  · unfold getAppPathAsync at h
    rw [hf] at h
    simp at h
  · unfold getAppPathAsync at h
    rw [hf] at h
    simp at h

theorem getAppPathAsync_single (d : String) (es : List String) (p : String)
    (h : es.filter matchesApplicationExtension = [p]) :
    getAppPathAsync d es = Except.ok (pathJoin d p) := by
  unfold getAppPathAsync
  rw [h]

theorem freshDownload_apk (archiveContents : String → List String)
    (uuid : String) (st : PipelineState) (url : String) (old : List String)
    (h : endsWithStr url ("apk") = true) :
    freshDownload archiveContents uuid st url old =
      (Except.ok (pathJoin (pathJoin downloadsCacheDirectory (cacheDirName url))
          (uuid ++ ".apk")),
       { fs := st.fs.store (cacheDirName url) (old ++ [uuid ++ ".apk"]),
         fetchCount := st.fetchCount + 1,
         extractCount := st.extractCount }) := by
  simp only [freshDownload]
  rw [if_pos h]

theorem freshDownload_tar (archiveContents : String → List String)
    (uuid : String) (st : PipelineState) (url : String) (old : List String)
    (h : endsWithStr url ("apk") = false) :
    freshDownload archiveContents uuid st url old =
      (getAppPathAsync (pathJoin downloadsCacheDirectory (cacheDirName url))
          (old ++ archiveContents url),
       { fs := st.fs.store (cacheDirName url) (old ++ archiveContents url),
         fetchCount := st.fetchCount + 1,
         extractCount := st.extractCount + 1 }) := by
  simp only [freshDownload]
  rw [if_neg (by simp [h])]

theorem dama_cacheMiss (archiveContents : String → List String)
    (uuid : String) (st : PipelineState) (url : String)
    (h : st.fs.find (cacheDirName url) = none) :
    downloadAndMaybeExtractAppAsync archiveContents uuid st url =
      freshDownload archiveContents uuid st url [] := by
  simp only [downloadAndMaybeExtractAppAsync]
  rw [h]

theorem dama_cacheHit (archiveContents : String → List String)
    (uuid : String) (st : PipelineState) (url : String) (es : List String)
    (p : String)
    (hfind : st.fs.find (cacheDirName url) = some es)
    (hloc : getAppPathAsync (pathJoin downloadsCacheDirectory (cacheDirName url))
        es = Except.ok p) :
    downloadAndMaybeExtractAppAsync archiveContents uuid st url =
      (Except.ok p, st) := by
  simp only [downloadAndMaybeExtractAppAsync]
  rw [hfind]
  dsimp only
  rw [hloc]

theorem dama_cacheAmbiguous (archiveContents : String → List String)
    (uuid : String) (st : PipelineState) (url : String) (es : List String)
    (c : String) (apps : List AppCandidate)
    (hfind : st.fs.find (cacheDirName url) = some es)
    (hloc : getAppPathAsync (pathJoin downloadsCacheDirectory (cacheDirName url))
        es = Except.error (LocateError.internalError c apps)) :
    downloadAndMaybeExtractAppAsync archiveContents uuid st url =
      (Except.error (LocateError.internalError c apps), st) := by
  simp only [downloadAndMaybeExtractAppAsync]
  rw [hfind]
  dsimp only
  rw [hloc]

theorem dama_cacheCorrupt (archiveContents : String → List String)
    (uuid : String) (st : PipelineState) (url : String) (es : List String)
    (hfind : st.fs.find (cacheDirName url) = some es)
    (hloc : getAppPathAsync (pathJoin downloadsCacheDirectory (cacheDirName url))
        es = Except.error LocateError.bundleNotFound) :
    downloadAndMaybeExtractAppAsync archiveContents uuid st url =
      freshDownload archiveContents uuid st url es := by
  simp only [downloadAndMaybeExtractAppAsync]
  rw [hfind]
  dsimp only
  rw [hloc]

theorem freshDownload_ok_cache (archiveContents : String → List String)
    (uuid : String) (st : PipelineState) (url : String) (old : List String)
    (p : String) (st1 : PipelineState)
    (hold : old.filter matchesApplicationExtension = [])
    (h : freshDownload archiveContents uuid st url old = (Except.ok p, st1)) :
    ∃ es, st1.fs.find (cacheDirName url) = some es ∧
      getAppPathAsync (pathJoin downloadsCacheDirectory (cacheDirName url)) es =
        Except.ok p := by
  by_cases happ : endsWithStr url ("apk") = true
  · rw [freshDownload_apk archiveContents uuid st url old happ,
      Prod.mk.injEq] at h
    obtain ⟨h1, h2⟩ := h
    refine ⟨old ++ [uuid ++ ".apk"], ?_, ?_⟩
    · rw [← h2]
      exact CacheFS.find_store _ _ _
    · rw [getAppPathAsync_single _ _ (uuid ++ ".apk")
        (by rw [List.filter_append, hold]
            simp [matchesApplicationExtension_apk])]
      exact h1
  · rw [freshDownload_tar archiveContents uuid st url old
      (Bool.not_eq_true _ ▸ happ), Prod.mk.injEq] at h
    obtain ⟨h1, h2⟩ := h
    refine ⟨old ++ archiveContents url, ?_, h1⟩
    rw [← h2]
    exact CacheFS.find_store _ _ _

/-- C2: calling `downloadAndMaybeExtractAppAsync` twice with the same URL,
when the first call succeeded non-ambiguously (returned `ok p` ending in
state `st1`), returns the identical path on the second call and issues no
network request: the second call resolves the same deterministic cache
directory, finds it populated, locates the bundle and returns before any
fetch, leaving the state — including `fetchCount` — unchanged. The second
call may even use a different random uuid; it is never consulted. -/
theorem C2_downloadAndMaybeExtractAppAsync_idempotent
    (archiveContents : String → List String) (uuid1 uuid2 : String)
    (st st1 : PipelineState) (url p : String)
    (h : downloadAndMaybeExtractAppAsync archiveContents uuid1 st url =
      (Except.ok p, st1)) :
    downloadAndMaybeExtractAppAsync archiveContents uuid2 st1 url =
      (Except.ok p, st1) := by
  rcases hfind : st.fs.find (cacheDirName url) with _ | entries
  · rw [dama_cacheMiss archiveContents uuid1 st url hfind] at h
    obtain ⟨es, hf, hl⟩ := freshDownload_ok_cache archiveContents uuid1 st url
      [] p st1 rfl h
    exact dama_cacheHit archiveContents uuid2 st1 url es p hf hl
  · rcases hloc : getAppPathAsync
        (pathJoin downloadsCacheDirectory (cacheDirName url)) entries with e | q
    · cases e with
      | bundleNotFound =>
        rw [dama_cacheCorrupt archiveContents uuid1 st url entries hfind hloc] at h
        obtain ⟨es, hf, hl⟩ := freshDownload_ok_cache archiveContents uuid1 st url
          entries p st1 (getAppPathAsync_nil_filter _ _ hloc) h
        exact dama_cacheHit archiveContents uuid2 st1 url es p hf hl
      | internalError c apps =>
        rw [dama_cacheAmbiguous archiveContents uuid1 st url entries c apps
          hfind hloc] at h
        simp at h
    · rw [dama_cacheHit archiveContents uuid1 st url entries q hfind hloc,
        Prod.mk.injEq] at h
      obtain ⟨h1, h2⟩ := h
      have hq : q = p := Except.ok.inj h1
      subst hq
      subst h2
      exact dama_cacheHit archiveContents uuid2 st url entries q hfind hloc

/-- Witness for C2: a concrete first call on an empty cache downloads an
archive holding one `.app` bundle; the theorem then forces the second
call to return the same path with the state untouched. -/
theorem C2_downloadAndMaybeExtractAppAsync_idempotent_witness :
    downloadAndMaybeExtractAppAsync (fun _ => [("payload/MyApp.app")]) ("u2")
        ((downloadAndMaybeExtractAppAsync (fun _ => [("payload/MyApp.app")])
          ("u1") ⟨[], 0, 0⟩ ("https://e/x.tar.gz")).2) ("https://e/x.tar.gz") =
      ((downloadAndMaybeExtractAppAsync (fun _ => [("payload/MyApp.app")])
          ("u1") ⟨[], 0, 0⟩ ("https://e/x.tar.gz")).1,
       (downloadAndMaybeExtractAppAsync (fun _ => [("payload/MyApp.app")])
          ("u1") ⟨[], 0, 0⟩ ("https://e/x.tar.gz")).2) := by
  have h := C2_downloadAndMaybeExtractAppAsync_idempotent
    (fun _ => [("payload/MyApp.app")]) ("u1") ("u2") ⟨[], 0, 0⟩
    ((downloadAndMaybeExtractAppAsync (fun _ => [("payload/MyApp.app")])
      ("u1") ⟨[], 0, 0⟩ ("https://e/x.tar.gz")).2) ("https://e/x.tar.gz")
    (pathJoin (pathJoin downloadsCacheDirectory
      (cacheDirName ("https://e/x.tar.gz"))) ("payload/MyApp.app"))
    (by rfl)
  rw [h]
  rfl

/-- C3: when the cache directory for the URL exists but locating a bundle
inside it fails, an ambiguous-match failure (`InternalError`) is surfaced
to the caller as a hard error with the state — hence the fetch count —
unchanged (no re-download); any other locate failure is swallowed, the
entry is treated as corrupt, and a fresh download proceeds into the same
directory: the fetch count increments and the same cache directory is
repopulated on top of its old entries. -/
theorem C3_downloadAndMaybeExtractAppAsync_cache_validation
    (archiveContents : String → List String) (uuid : String)
    (st : PipelineState) (url : String) (entries : List String)
    (hfind : st.fs.find (cacheDirName url) = some entries) :
    (∀ c apps,
      getAppPathAsync (pathJoin downloadsCacheDirectory (cacheDirName url))
          entries = Except.error (LocateError.internalError c apps) →
      downloadAndMaybeExtractAppAsync archiveContents uuid st url =
        (Except.error (LocateError.internalError c apps), st)) ∧
    (getAppPathAsync (pathJoin downloadsCacheDirectory (cacheDirName url))
        entries = Except.error LocateError.bundleNotFound →
      (downloadAndMaybeExtractAppAsync archiveContents uuid st url).2.fetchCount =
        st.fetchCount + 1 ∧
      (downloadAndMaybeExtractAppAsync archiveContents uuid st url).2.fs.find
          (cacheDirName url) =
        some (entries ++ (if endsWithStr url ("apk") = true
          then [uuid ++ ".apk"] else archiveContents url))) := by
  constructor
  · intro c apps hloc
    exact dama_cacheAmbiguous archiveContents uuid st url entries c apps hfind hloc
  · intro hloc
    rw [dama_cacheCorrupt archiveContents uuid st url entries hfind hloc]
    by_cases happ : endsWithStr url ("apk") = true
    · rw [freshDownload_apk archiveContents uuid st url entries happ]
      rw [if_pos happ]
      exact ⟨rfl, CacheFS.find_store _ _ _⟩
    · have happf : endsWithStr url ("apk") = false := Bool.eq_false_iff.mpr happ
      rw [freshDownload_tar archiveContents uuid st url entries happf]
      rw [if_neg (by rw [happf]; exact Bool.false_ne_true)]
      exact ⟨rfl, CacheFS.find_store _ _ _⟩

/-- Witness for C3 at a cache directory holding two `.apk` entries: the
ambiguous-match error is rethrown unchanged with the state untouched. -/
theorem C3_downloadAndMaybeExtractAppAsync_cache_validation_witness :
    downloadAndMaybeExtractAppAsync (fun _ => []) ("u")
        ⟨[(cacheDirName ("https://e/x"), [("a.apk"), ("b.apk")])], 0, 0⟩
        ("https://e/x") =
      (Except.error (LocateError.internalError ("MULTIPLE_APPS_IN_TARBALL")
        [⟨("a.apk"), pathJoin (pathJoin downloadsCacheDirectory
            (cacheDirName ("https://e/x"))) ("a.apk")⟩,
         ⟨("b.apk"), pathJoin (pathJoin downloadsCacheDirectory
            (cacheDirName ("https://e/x"))) ("b.apk")⟩]),
       ⟨[(cacheDirName ("https://e/x"), [("a.apk"), ("b.apk")])], 0, 0⟩) :=
  (C3_downloadAndMaybeExtractAppAsync_cache_validation (fun _ => []) ("u")
    ⟨[(cacheDirName ("https://e/x"), [("a.apk"), ("b.apk")])], 0, 0⟩
    ("https://e/x") [("a.apk"), ("b.apk")] (by rfl)).1
    ("MULTIPLE_APPS_IN_TARBALL") _ (by rfl)

/-- C10: the raw-package test is the bare string suffix `apk` with no
required dot. For a URL whose last three characters are `apk` (for
example one whose path ends in `myapk`), with no cache entry, the
pipeline downloads directly into the cache directory under the random
`<uuid>.apk` file name, performs no extraction (`extractCount` is
unchanged) and returns that path, which ends in `.apk`; a URL not ending
in `apk` takes the archive route: one download, one extraction into the
cache directory, then bundle location over the extracted contents. -/
theorem C10_downloadAndMaybeExtractAppAsync_raw_apk_suffix
    (archiveContents : String → List String) (uuid : String)
    (st : PipelineState) (url : String)
    (hfind : st.fs.find (cacheDirName url) = none) :
    (endsWithStr url ("apk") = true →
      downloadAndMaybeExtractAppAsync archiveContents uuid st url =
        (Except.ok (pathJoin (pathJoin downloadsCacheDirectory
            (cacheDirName url)) (uuid ++ ".apk")),
         { fs := st.fs.store (cacheDirName url) [uuid ++ ".apk"],
           fetchCount := st.fetchCount + 1,
           extractCount := st.extractCount }) ∧
      endsWithStr (pathJoin (pathJoin downloadsCacheDirectory
          (cacheDirName url)) (uuid ++ ".apk")) (".apk") = true) ∧
    (endsWithStr url ("apk") = false →
      downloadAndMaybeExtractAppAsync archiveContents uuid st url =
        (getAppPathAsync (pathJoin downloadsCacheDirectory (cacheDirName url))
            (archiveContents url),
         { fs := st.fs.store (cacheDirName url) (archiveContents url),
           fetchCount := st.fetchCount + 1,
           extractCount := st.extractCount + 1 })) := by
  constructor
  · intro happ
    constructor
    · rw [dama_cacheMiss archiveContents uuid st url hfind,
        freshDownload_apk archiveContents uuid st url [] happ]
      simp
    · have : pathJoin (pathJoin downloadsCacheDirectory (cacheDirName url))
          (uuid ++ ".apk") =
          (pathJoin downloadsCacheDirectory (cacheDirName url) ++ "/" ++ uuid)
            ++ ".apk" := by
        unfold pathJoin
        simp [String.append_assoc]
      rw [this]
      exact endsWithStr_append _ _
  · intro happ
    rw [dama_cacheMiss archiveContents uuid st url hfind,
      freshDownload_tar archiveContents uuid st url [] happ]
    simp

/-- Witness for C10 at the URL `http://host/myapk`, which ends in `apk`
without a dot: the direct-download branch is taken with no extraction. -/
theorem C10_downloadAndMaybeExtractAppAsync_raw_apk_suffix_witness :
    downloadAndMaybeExtractAppAsync (fun _ => []) ("u") ⟨[], 0, 0⟩
        ("http://host/myapk") =
      (Except.ok (pathJoin (pathJoin downloadsCacheDirectory
          (cacheDirName ("http://host/myapk"))) ("u.apk")),
       { fs := CacheFS.store [] (cacheDirName ("http://host/myapk")) [("u.apk")],
         fetchCount := 1,
         extractCount := 0 }) := by
  have h := ((C10_downloadAndMaybeExtractAppAsync_raw_apk_suffix (fun _ => [])
    ("u") ⟨[], 0, 0⟩ ("http://host/myapk") (by rfl)).1 (by decide)).1
  rw [h]
  rfl

/-! Two-tier tar extraction. `tarExtractAsync(input, output)` spawns
`tar -xf <input> -C <output>` unless the platform is `win32`, and on any
spawn failure (or on `win32`) runs the in-process JS `tar.extract` into
the same output directory. The subprocess and the JS extractor are given
as failure oracles; the trace records the spawn invocations (command and
argument vector), the warnings logged, and the JS extractor invocations
(archive file and target cwd). -/

/-- Observable side effects of one `tarExtractAsync` run. -/
structure ExtractTrace where
  spawnCalls : List (String × List String)
  warnings : List String
  jsExtractCalls : List (String × String)
deriving Repr, DecidableEq

/-- Argument vector passed to the external tool:
`['-xf', input, '-C', output]`. -/
def tarCmdArgs (input output : String) : List String :=
  [("-xf"), input, ("-C"), output]

/-- Models `tarExtractAsync(input, output)` for a given
`process.platform`. `spawnError` is `some msg` when the `tar` subprocess
fails (tool missing, non-zero exit, I/O error) and `jsExtractError` is
`some e` when the in-process `tar.extract` fails. -/
def tarExtractAsync (platform : String) (spawnError : Option String)
    (jsExtractError : Option String) (input output : String) :
    Except String Unit × ExtractTrace :=
  if platform = "win32" then
    match jsExtractError with
    | none => (Except.ok (), ⟨[], [], [(input, output)]⟩)
    | some e => (Except.error e, ⟨[], [], [(input, output)]⟩)
  else
    match spawnError with
    | none => (Except.ok (), ⟨[(("tar"), tarCmdArgs input output)], [], []⟩)
    | some msg =>
      let warning :=
        "Failed to extract tar using native tools, falling back on JS tar module. "
          ++ msg
      match jsExtractError with
      | none =>
        (Except.ok (),
         ⟨[(("tar"), tarCmdArgs input output)], [warning], [(input, output)]⟩)
      | some e =>
        (Except.error e,
         ⟨[(("tar"), tarCmdArgs input output)], [warning], [(input, output)]⟩)

/-- C4: `tarExtractAsync` first attempts extraction via the external
`tar` subprocess with arguments `-xf <archive> -C <outputDir>` on every
platform except `win32`; `win32` always skips straight to the fallback
(no spawn call). On any subprocess failure it logs a warning and falls
back to the in-process JS extractor writing into the same output
directory, so a forced subprocess failure still succeeds whenever the
fallback succeeds — with the same output directory, hence the same final
bundle resolution; the whole operation fails only when the fallback tier
also fails (and, off `win32`, the subprocess tier failed too). -/
theorem C4_tarExtractAsync_two_tier (platform : String)
    (spawnError jsExtractError : Option String) (input output : String) :
    (platform ≠ "win32" → spawnError = none →
      tarExtractAsync platform spawnError jsExtractError input output =
        (Except.ok (), ⟨[(("tar"), tarCmdArgs input output)], [], []⟩)) ∧
    (platform = "win32" →
      (tarExtractAsync platform spawnError jsExtractError input output).2.spawnCalls
          = [] ∧
      (tarExtractAsync platform spawnError jsExtractError input
          output).2.jsExtractCalls = [(input, output)]) ∧
    (platform ≠ "win32" → ∀ msg, spawnError = some msg →
      (tarExtractAsync platform spawnError jsExtractError input output).2.spawnCalls
          = [(("tar"), tarCmdArgs input output)] ∧
      (tarExtractAsync platform spawnError jsExtractError input
          output).2.warnings ≠ [] ∧
      (tarExtractAsync platform spawnError jsExtractError input
          output).2.jsExtractCalls = [(input, output)] ∧
      (jsExtractError = none →
        (tarExtractAsync platform spawnError jsExtractError input output).1 =
          Except.ok ())) ∧
    (∀ e, (tarExtractAsync platform spawnError jsExtractError input output).1 =
        Except.error e →
      jsExtractError = some e ∧ (platform = "win32" ∨ spawnError ≠ none)) := by
  refine ⟨?_, ?_, ?_, ?_⟩
  · intro hp hs
    unfold tarExtractAsync
    rw [if_neg hp, hs]
  · intro hp
    unfold tarExtractAsync
    rw [if_pos hp]
    cases jsExtractError <;> exact ⟨rfl, rfl⟩
  · intro hp msg hs
    unfold tarExtractAsync
    rw [if_neg hp, hs]
    cases jsExtractError with
    | none => exact ⟨rfl, by simp, rfl, fun _ => rfl⟩
    | some e => exact ⟨rfl, by simp, rfl, fun h => by cases h⟩
  · intro e he
    unfold tarExtractAsync at he
    by_cases hp : platform = "win32"
    · rw [if_pos hp] at he
      cases jsExtractError with
      | none => simp at he
      | some e2 =>
        refine ⟨?_, Or.inl hp⟩
        simp only at he
        rw [Except.error.inj he]
    · rw [if_neg hp] at he
      cases hs : spawnError with
      | none => rw [hs] at he; simp at he
      | some msg =>
        rw [hs] at he
        cases jsExtractError with
        | none => simp at he
        | some e2 =>
          refine ⟨?_, Or.inr (by simp [hs])⟩
          simp only at he
          rw [Except.error.inj he]

/-- Witness for C4 on a non-win32 platform with a forced subprocess
failure and a working fallback: the spawn is attempted with the exact
argument vector, a warning is recorded, the JS extractor runs into the
same output directory, and the operation succeeds. -/
theorem C4_tarExtractAsync_two_tier_witness :
    (tarExtractAsync ("darwin") (some ("boom")) none ("/a/x.tar.gz")
        ("/out")).2.spawnCalls =
      [(("tar"), tarCmdArgs ("/a/x.tar.gz") ("/out"))] ∧
    (tarExtractAsync ("darwin") (some ("boom")) none ("/a/x.tar.gz")
        ("/out")).2.jsExtractCalls = [(("/a/x.tar.gz"), ("/out"))] ∧
    (tarExtractAsync ("darwin") (some ("boom")) none ("/a/x.tar.gz")
        ("/out")).1 = Except.ok () := by
  have h := (C4_tarExtractAsync_two_tier ("darwin") (some ("boom")) none
    ("/a/x.tar.gz") ("/out")).2.2.1 (by decide) ("boom") rfl
  exact ⟨h.1, h.2.2.1, h.2.2.2 rfl⟩

/-! Download with cleanup. `downloadFileWithProgressTrackerAsync` fetches
the URL (5 minute timeout), throws on a non-success status, streams the
body to `outputPath`, and in its catch block removes `outputPath` when it
exists before rethrowing. The filesystem is the list of existing paths;
`fetchError` models a network/timeout failure of the fetch itself and
`streamError` a failure while piping the body to disk (after which a
partial file exists). -/

/-- Models `if (await fs.pathExists(outputPath)) await fs.remove(outputPath)`. -/
def removeIfExists (fs : List String) (p : String) : List String :=
  if p ∈ fs then fs.filter (fun q => q ≠ p) else fs

/-- Models `downloadFileWithProgressTrackerAsync(url, outputPath, ...)`:
returns the thrown error (if any) and the resulting filesystem. -/
def downloadFileWithProgressTrackerAsync (url : String)
    (fetchError : Option String) (responseOk : Bool)
    (streamError : Option String) (fs : List String) (outputPath : String) :
    Except String Unit × List String :=
  match fetchError with
  | some e => (Except.error e, removeIfExists fs outputPath)
  | none =>
    if responseOk = false then
      (Except.error ("Failed to download file from " ++ url),
       removeIfExists fs outputPath)
    else
      match streamError with
      | some e => (Except.error e, removeIfExists (outputPath :: fs) outputPath)
      | none => (Except.ok (), outputPath :: fs)

theorem removeIfExists_not_mem (fs : List String) (p : String) :
    p ∉ removeIfExists fs p := by
  unfold removeIfExists
  by_cases h : p ∈ fs
  · rw [if_pos h]
    intro hmem
    have := (List.mem_filter.mp hmem).2
    simp at this
  · rw [if_neg h]
    exact h

/-- C8: if the download fails for any reason — fetch/network/timeout
error, non-success HTTP status, or write error while streaming — then the
error propagates out of `downloadFileWithProgressTrackerAsync` only after
any partially written file at `outputPath` has been deleted: on every
error outcome `outputPath` is absent from the resulting filesystem. -/
theorem C8_downloadFileWithProgressTrackerAsync_cleanup (url : String)
    (fetchError : Option String) (responseOk : Bool)
    (streamError : Option String) (fs : List String) (outputPath : String)
    (e : String)
    (h : (downloadFileWithProgressTrackerAsync url fetchError responseOk
      streamError fs outputPath).1 = Except.error e) :
    outputPath ∉ (downloadFileWithProgressTrackerAsync url fetchError
      responseOk streamError fs outputPath).2 := by
  unfold downloadFileWithProgressTrackerAsync at h ⊢
  cases fetchError with
  | some e2 => exact removeIfExists_not_mem fs outputPath
  | none =>
    by_cases hr : responseOk = false
    · rw [if_pos hr]
      exact removeIfExists_not_mem fs outputPath
    · rw [if_neg hr] at h ⊢
      cases streamError with
      | some e2 => exact removeIfExists_not_mem (outputPath :: fs) outputPath
      | none => simp at h

/-- Witness for C8: a write error after a successful response leaves no
partial file at the output path. -/
theorem C8_downloadFileWithProgressTrackerAsync_cleanup_witness :
    ("/tmp/f.apk") ∉ (downloadFileWithProgressTrackerAsync ("https://e/f")
      none true (some ("disk full")) [] ("/tmp/f.apk")).2 :=
  C8_downloadFileWithProgressTrackerAsync_cleanup ("https://e/f") none true
    (some ("disk full")) [] ("/tmp/f.apk") ("disk full") (by rfl)

/-! Throttled progress reporting. `wrapFetchWithProgress` closes over
`didProgressBarFinish` and `lastProgressCallTime`, attaches `data` and
`end` listeners to the response body, and invokes the progress sink from
`onProgress`. A transfer is modeled as the list of listener firings in
order: `data` events carrying a chunk length and the `Date.now()` value
observed inside the callback, and the terminal `end` event. The emitted
sink invocations are collected as a list of `ProgressEvent`s. -/

/-- Models one argument to the progress sink: the fields of
`{ progress: { total, transferred }, isComplete }` together with the
`Date.now()` value at the call. -/
structure ProgressEvent where
  total : Nat
  transferred : Nat
  isComplete : Bool
  time : Int
deriving Repr, DecidableEq

/-- Mutable closure state of `wrapFetchWithProgress`:
`didProgressBarFinish`, `lastProgressCallTime`, and the running byte
counter `length`. -/
structure ProgressState where
  didProgressBarFinish : Bool
  lastProgressCallTime : Int
  length : Nat
deriving Repr, DecidableEq

/-- Closure state at the start of a transfer:
`didProgressBarFinish = false`, `lastProgressCallTime = 0`, `length = 0`. -/
def initialProgressState : ProgressState := ⟨false, 0, 0⟩

/-- Models `if (chunkLength) { length += chunkLength }`: the byte counter
after one listener firing (`none` is the `end` event, whose
`chunkLength` is `undefined`; a zero chunk is falsy and adds nothing). -/
def newLength (s : ProgressState) (chunkLength : Option Nat) : Nat :=
  match chunkLength with
  | some n => if n = 0 then s.length else s.length + n
  | none => s.length

/-- Models one call of `onProgress(chunkLength)` at wall-clock time
`currentTime`: updates the counter, and emits a sink call exactly when
the latch is open and either 250ms have elapsed since the last emitted
call or the counter has reached the total; an emitted call updates
`lastProgressCallTime` and, on completion, closes the latch. -/
def onProgress (total : Nat) (s : ProgressState) (chunkLength : Option Nat)
    (currentTime : Int) : ProgressState × Option ProgressEvent :=
  let length := newLength s chunkLength
  if s.didProgressBarFinish = false ∧
      (250 ≤ currentTime - s.lastProgressCallTime ∨ length = total) then
    (⟨decide (total = length), currentTime, length⟩,
     some ⟨total, length, decide (total = length), currentTime⟩)
  else
    (⟨s.didProgressBarFinish, s.lastProgressCallTime, length⟩, none)

/-- A listener firing on the response body: a `data` chunk or the `end`
event, each with the `Date.now()` value observed in the callback. -/
inductive StreamEvent where
  | data (len : Nat) (time : Int)
  | streamEnd (time : Int)
deriving Repr, DecidableEq

/-- Chunk length passed to `onProgress` (`none` for the `end` event). -/
def StreamEvent.chunk : StreamEvent → Option Nat
  | StreamEvent.data n _ => some n
  | StreamEvent.streamEnd _ => none

/-- Wall-clock time observed inside the listener. -/
def StreamEvent.time : StreamEvent → Int
  | StreamEvent.data _ t => t
  | StreamEvent.streamEnd t => t

/-- Sink calls emitted while the listeners process a list of stream
events from closure state `s`. -/
def processEvents (total : Nat) : ProgressState → List StreamEvent → List ProgressEvent
  | _, [] => []
  | s, e :: rest =>
    match onProgress total s e.chunk e.time with
    | (s2, none) => processEvents total s2 rest
    | (s2, some ev) => ev :: processEvents total s2 rest

/-- Closure state after the listeners process a list of stream events. -/
def runState (total : Nat) : ProgressState → List StreamEvent → ProgressState
  | s, [] => s
  | s, e :: rest => runState total (onProgress total s e.chunk e.time).1 rest

/-- Total number of bytes carried by the `data` events of a trace. -/
def dataSum (events : List StreamEvent) : Nat :=
  (events.map (fun e => (e.chunk).getD 0)).sum

theorem newLength_ge (s : ProgressState) (c : Option Nat) :
    s.length ≤ newLength s c := by
  cases c with
  | none => exact Nat.le_refl _
  | some n =>
    show s.length ≤ if n = 0 then s.length else s.length + n
    by_cases h : n = 0
    · rw [if_pos h]
    · rw [if_neg h]
      exact Nat.le_add_right _ _

theorem newLength_eq (s : ProgressState) (c : Option Nat) :
    newLength s c = s.length + (c.getD 0) := by
  cases c with
  | none => exact (Nat.add_zero _).symm
  | some n =>
    show (if n = 0 then s.length else s.length + n) = s.length + n
    by_cases h : n = 0
    · rw [if_pos h, h]
      exact (Nat.add_zero _).symm
    · rw [if_neg h]

theorem onProgress_emit (total : Nat) (s : ProgressState) (c : Option Nat)
    (t : Int) (hdid : s.didProgressBarFinish = false)
    (hcond : 250 ≤ t - s.lastProgressCallTime ∨ newLength s c = total) :
    onProgress total s c t =
      (⟨decide (total = newLength s c), t, newLength s c⟩,
       some ⟨total, newLength s c, decide (total = newLength s c), t⟩) := by
  unfold onProgress
  rw [if_pos ⟨hdid, hcond⟩]

theorem onProgress_skip (total : Nat) (s : ProgressState) (c : Option Nat)
    (t : Int)
    (hcond : ¬(s.didProgressBarFinish = false ∧
      (250 ≤ t - s.lastProgressCallTime ∨ newLength s c = total))) :
    onProgress total s c t =
      (⟨s.didProgressBarFinish, s.lastProgressCallTime, newLength s c⟩, none) := by
  unfold onProgress
  rw [if_neg hcond]

theorem processEvents_cons (total : Nat) (s : ProgressState) (e : StreamEvent)
    (rest : List StreamEvent) :
    processEvents total s (e :: rest) =
      match onProgress total s e.chunk e.time with
      | (s2, none) => processEvents total s2 rest
      | (s2, some ev) => ev :: processEvents total s2 rest := by
  conv_lhs => unfold processEvents

theorem runState_cons (total : Nat) (s : ProgressState) (e : StreamEvent)
    (rest : List StreamEvent) :
    runState total s (e :: rest) =
      runState total (onProgress total s e.chunk e.time).1 rest := by
  conv_lhs => unfold runState

theorem processEvents_latch (total : Nat) (events : List StreamEvent)
    (s : ProgressState) (hdid : s.didProgressBarFinish = true) :
    processEvents total s events = [] := by
  induction events generalizing s with
  | nil => rfl
  | cons e rest ih =>
    rw [processEvents_cons,
      onProgress_skip total s e.chunk e.time (by rw [hdid]; simp)]
    exact ih _ hdid

theorem processEvents_throttle (total : Nat) (events : List StreamEvent) :
    ∀ s : ProgressState,
    List.Pairwise (fun a b => b.isComplete = false → 250 ≤ b.time - a.time)
      (processEvents total s events) ∧
    (∀ ev ∈ processEvents total s events, ev.isComplete = false →
      250 ≤ ev.time - s.lastProgressCallTime) := by
  induction events with
  | nil => exact fun s => ⟨List.Pairwise.nil, by simp [processEvents]⟩
  | cons e rest ih =>
    intro s
    by_cases hc : s.didProgressBarFinish = false ∧
        (250 ≤ e.time - s.lastProgressCallTime ∨ newLength s e.chunk = total)
    · rw [processEvents_cons, onProgress_emit total s e.chunk e.time hc.1 hc.2]
      dsimp only
      by_cases hfin : total = newLength s e.chunk
      · rw [processEvents_latch total rest _ (by simp [hfin])]
        constructor
        · exact List.pairwise_singleton _ _
        · intro ev hev hnc
          rcases List.mem_singleton.mp hev with rfl
          simp [hfin] at hnc
      · have hgap : 250 ≤ e.time - s.lastProgressCallTime := by
          rcases hc.2 with h | h
          · exact h
          · exact absurd h.symm hfin
        obtain ⟨ihp, ihb⟩ :=
          ih ⟨decide (total = newLength s e.chunk), e.time, newLength s e.chunk⟩
        constructor
        · refine List.Pairwise.cons ?_ ihp
          intro b hb hnb
          simpa using ihb b hb hnb
        · intro ev hev hnc
          rcases List.mem_cons.mp hev with rfl | hmem
          · simpa using hgap
          · have h1 : 250 ≤ ev.time - e.time := by simpa using ihb ev hmem hnc
            omega
    · rw [processEvents_cons, onProgress_skip total s e.chunk e.time hc]
      dsimp only
      obtain ⟨ihp, ihb⟩ :=
        ih ⟨s.didProgressBarFinish, s.lastProgressCallTime, newLength s e.chunk⟩
      exact ⟨ihp, fun ev hev hnc => by simpa using ihb ev hev hnc⟩

theorem processEvents_final_last (total : Nat) (events : List StreamEvent) :
    ∀ s : ProgressState,
    List.Pairwise (fun a _ => a.isComplete = false)
      (processEvents total s events) := by
  induction events with
  | nil => exact fun s => List.Pairwise.nil
  | cons e rest ih =>
    intro s
    by_cases hc : s.didProgressBarFinish = false ∧
        (250 ≤ e.time - s.lastProgressCallTime ∨ newLength s e.chunk = total)
    · rw [processEvents_cons, onProgress_emit total s e.chunk e.time hc.1 hc.2]
      dsimp only
      by_cases hfin : total = newLength s e.chunk
      · rw [processEvents_latch total rest _ (by simp [hfin])]
        exact List.pairwise_singleton _ _
      · refine List.Pairwise.cons ?_ (ih _)
        intro b hb
        simp [hfin]
    · rw [processEvents_cons, onProgress_skip total s e.chunk e.time hc]
      dsimp only
      exact ih _

theorem processEvents_monotone (total : Nat) (events : List StreamEvent) :
    ∀ s : ProgressState,
    List.Pairwise (fun a b => a.transferred ≤ b.transferred)
      (processEvents total s events) ∧
    (∀ ev ∈ processEvents total s events, s.length ≤ ev.transferred) := by
  induction events with
  | nil => exact fun s => ⟨List.Pairwise.nil, by simp [processEvents]⟩
  | cons e rest ih =>
    intro s
    by_cases hc : s.didProgressBarFinish = false ∧
        (250 ≤ e.time - s.lastProgressCallTime ∨ newLength s e.chunk = total)
    · rw [processEvents_cons, onProgress_emit total s e.chunk e.time hc.1 hc.2]
      dsimp only
      obtain ⟨ihp, ihb⟩ :=
        ih ⟨decide (total = newLength s e.chunk), e.time, newLength s e.chunk⟩
      constructor
      · refine List.Pairwise.cons ?_ ihp
        intro b hb
        simpa using ihb b hb
      · intro ev hev
        rcases List.mem_cons.mp hev with rfl | hmem
        · simpa using newLength_ge s e.chunk
        · exact Nat.le_trans (newLength_ge s e.chunk) (by simpa using ihb ev hmem)
    · rw [processEvents_cons, onProgress_skip total s e.chunk e.time hc]
      dsimp only
      obtain ⟨ihp, ihb⟩ :=
        ih ⟨s.didProgressBarFinish, s.lastProgressCallTime, newLength s e.chunk⟩
      exact ⟨ihp, fun ev hev =>
        Nat.le_trans (newLength_ge s e.chunk) (by simpa using ihb ev hev)⟩

theorem onProgress_fst_length (total : Nat) (s : ProgressState)
    (c : Option Nat) (t : Int) :
    (onProgress total s c t).1.length = newLength s c := by
  by_cases hc : s.didProgressBarFinish = false ∧
      (250 ≤ t - s.lastProgressCallTime ∨ newLength s c = total)
  · rw [onProgress_emit total s c t hc.1 hc.2]
  · rw [onProgress_skip total s c t hc]

theorem dataSum_cons (e : StreamEvent) (rest : List StreamEvent) :
    dataSum (e :: rest) = (e.chunk).getD 0 + dataSum rest := by
  simp [dataSum]

theorem runState_length (total : Nat) (events : List StreamEvent) :
    ∀ s : ProgressState,
    (runState total s events).length = s.length + dataSum events := by
  induction events with
  | nil => intro s; simp [runState, dataSum]
  | cons e rest ih =>
    intro s
    rw [runState_cons, ih, onProgress_fst_length, newLength_eq, dataSum_cons]
    omega

theorem processEvents_append (total : Nat) (l1 l2 : List StreamEvent) :
    ∀ s : ProgressState,
    processEvents total s (l1 ++ l2) =
      processEvents total s l1 ++
        processEvents total (runState total s l1) l2 := by
  induction l1 with
  | nil => intro s; rfl
  | cons e rest ih =>
    intro s
    rw [List.cons_append, processEvents_cons, processEvents_cons, runState_cons]
    rcases h : onProgress total s e.chunk e.time with ⟨s2, _ | ev⟩
    · dsimp only
      exact ih s2
    · dsimp only
      rw [ih s2, List.cons_append]

theorem runState_did_final (total : Nat) (events : List StreamEvent) :
    ∀ s : ProgressState, s.didProgressBarFinish = false →
    (runState total s events).didProgressBarFinish = true →
    ∃ t2, (processEvents total s events).getLast? =
      some ⟨total, total, true, t2⟩ := by
  induction events with
  | nil =>
    intro s h0 h1
    rw [show runState total s [] = s from rfl, h0] at h1
    cases h1
  | cons e rest ih =>
    intro s h0 h1
    rw [runState_cons] at h1
    rw [processEvents_cons]
    by_cases hc : s.didProgressBarFinish = false ∧
        (250 ≤ e.time - s.lastProgressCallTime ∨ newLength s e.chunk = total)
    · rw [onProgress_emit total s e.chunk e.time hc.1 hc.2] at h1 ⊢
      dsimp only at h1 ⊢
      by_cases hfin : total = newLength s e.chunk
      · rw [processEvents_latch total rest _ (by simp [hfin])]
        refine ⟨e.time, ?_⟩
        simp [← hfin]
      · have h2 : (⟨decide (total = newLength s e.chunk), e.time,
            newLength s e.chunk⟩ : ProgressState).didProgressBarFinish = false := by
          simp [hfin]
        obtain ⟨t2, hlast⟩ := ih _ h2 h1
        refine ⟨t2, ?_⟩
        rcases hout : processEvents total ⟨decide (total = newLength s e.chunk),
            e.time, newLength s e.chunk⟩ rest with _ | ⟨y, ys⟩
        · rw [hout] at hlast
          simp at hlast
        · rw [hout] at hlast
          rw [List.getLast?_cons_cons]
          exact hlast
    · rw [onProgress_skip total s e.chunk e.time hc] at h1 ⊢
      dsimp only at h1 ⊢
      exact ih _ (by simpa using h0) h1

theorem processEvents_end_complete (total : Nat) (s : ProgressState) (t : Int)
    (h0 : s.didProgressBarFinish = false) (hlen : s.length = total) :
    processEvents total s [StreamEvent.streamEnd t] =
      [⟨total, total, true, t⟩] := by
  have hnl : newLength s (StreamEvent.streamEnd t).chunk = total := hlen
  have h1 : onProgress total s (StreamEvent.streamEnd t).chunk
      (StreamEvent.streamEnd t).time =
      (⟨true, t, total⟩, some ⟨total, total, true, t⟩) := by
    rw [onProgress_emit total s _ _ h0 (Or.inr hnl)]
    rw [hnl]
    simp [StreamEvent.time]
  rw [processEvents_cons, h1]
  dsimp only
  rfl

/-- C5: for any single transfer with a valid Content-Length, the progress
sink is invoked at most once per 250ms of wall-clock time except the
final (`isComplete`) call: over the whole emitted event list, every
non-final event fires at least 250ms (measured at call time) after the
event emitted just before it — so no two non-final progress events are
ever delivered less than 250ms apart. -/
theorem C5_wrapFetchWithProgress_throttle (total : Nat)
    (events : List StreamEvent) :
    List.Pairwise (fun a b => b.isComplete = false → 250 ≤ b.time - a.time)
      (processEvents total initialProgressState events) :=
  (processEvents_throttle total events initialProgressState).1

/-- C6: for any single transfer, (1) after the first `isComplete` event
nothing more is ever delivered — the `didProgressBarFinish` latch holds
even against spurious later chunks or the `end` event; (2) successive
`bytesTransferred` values are non-decreasing; (3) when the stream ends
after delivering exactly `total` bytes, the final delivered event has
`isComplete = true` and `bytesTransferred = total`. -/
theorem C6_wrapFetchWithProgress_latch_monotone_final (total : Nat)
    (events : List StreamEvent) :
    (∀ pre ev post,
      processEvents total initialProgressState events = pre ++ ev :: post →
      ev.isComplete = true → post = []) ∧
    List.Pairwise (fun a b => a.transferred ≤ b.transferred)
      (processEvents total initialProgressState events) ∧
    (∀ body t, events = body ++ [StreamEvent.streamEnd t] →
      dataSum body = total →
      ∃ t2, (processEvents total initialProgressState events).getLast? =
        some ⟨total, total, true, t2⟩) := by
  refine ⟨?_, (processEvents_monotone total events initialProgressState).1, ?_⟩
  · intro pre ev post hsplit hfin
    have hp := processEvents_final_last total events initialProgressState
    rw [hsplit] at hp
    have hsub : List.Pairwise (fun a _ => a.isComplete = false) (ev :: post) :=
      List.Pairwise.sublist (List.IsSuffix.sublist
        (List.suffix_append pre (ev :: post))) hp
    cases post with
    | nil => rfl
    | cons y ys =>
      have hcontra := (List.pairwise_cons.mp hsub).1 y (List.mem_cons_self y ys)
      rw [hfin] at hcontra
      cases hcontra
  · intro body t hsplit hsum
    rw [hsplit, processEvents_append]
    have hlen : (runState total initialProgressState body).length = total := by
      rw [runState_length]
      simpa [initialProgressState] using hsum
    by_cases hdid :
        (runState total initialProgressState body).didProgressBarFinish = true
    · obtain ⟨t2, hlast⟩ :=
        runState_did_final total body initialProgressState rfl hdid
      refine ⟨t2, ?_⟩
      rw [processEvents_latch total [StreamEvent.streamEnd t] _ hdid,
        List.append_nil]
      exact hlast
    · have hdid2 :
          (runState total initialProgressState body).didProgressBarFinish
            = false := Bool.eq_false_iff.mpr hdid
      rw [processEvents_end_complete total _ t hdid2 hlen]
      exact ⟨t, List.getLast?_concat _⟩

/-- Witness for C6: a transfer of 10 bytes in chunks of 4 and 6 followed
by the stream end; the last delivered event is the completion event with
all 10 bytes transferred. -/
theorem C6_wrapFetchWithProgress_latch_monotone_final_witness :
    ∃ t2, (processEvents 10 initialProgressState
      [StreamEvent.data 4 0, StreamEvent.data 6 100,
       StreamEvent.streamEnd 100]).getLast? = some ⟨10, 10, true, t2⟩ :=
  (C6_wrapFetchWithProgress_latch_monotone_final 10
    [StreamEvent.data 4 0, StreamEvent.data 6 100,
     StreamEvent.streamEnd 100]).2.2
    [StreamEvent.data 4 0, StreamEvent.data 6 100] 100 rfl (by decide)

/-! Content-Length validation. `wrapFetchWithProgress` reads the
`Content-Length` header of a successful response, converts it with
`Number(...)`, and disables progress reporting entirely — logging a
warning and returning the response with no listeners attached — when the
header is missing or empty (falsy), does not parse (`isNaN`), or is
negative. -/

/-- Decimal digit test for `Number(...)` parsing. -/
def isDigitChar (c : Char) : Bool := decide (48 ≤ c.toNat ∧ c.toNat ≤ 57)

/-- Value of a nonempty all-digit character run, `none` otherwise. -/
def parseDecDigits (cs : List Char) : Option Nat :=
  match cs with
  | [] => none
  | _ =>
    if cs.all isDigitChar then
      some (cs.foldl (fun a c => 10 * a + (c.toNat - 48)) 0)
    else none

/-- Models JavaScript `Number(string)` on the shapes a `Content-Length`
value can take: surrounding spaces are trimmed, the empty string is `0`,
an optional sign precedes a nonempty decimal digit run; anything else is
NaN (`none`). (Exotic numeric literals — hex, exponents, fractions — are
out of scope for this header and are mapped to NaN.) -/
def jsNumber (s : String) : Option Int :=
  let cs := ((s.data.dropWhile (fun c => c = ' ')).reverse.dropWhile
    (fun c => c = ' ')).reverse
  match cs with
  | [] => some 0
  | c :: rest =>
    if c = '-' then (parseDecDigits rest).map (fun n => -(n : Int))
    else if c = '+' then (parseDecDigits rest).map (fun n => (n : Int))
    else (parseDecDigits (c :: rest)).map (fun n => (n : Int))

/-- Models the guard `!totalDownloadSize || isNaN(total) || total < 0`
(negated): the header is present, non-empty, parses to a number, and that
number is non-negative. -/
def contentLengthValid (header : Option String) : Bool :=
  match header with
  | none => false
  | some s =>
    if s = "" then false
    else
      match jsNumber s with
      | none => false
      | some n => decide (0 ≤ n)

/-- Observable outcome of `wrapFetchWithProgress` on one response: the
sink calls emitted, whether the invalid-header warning was logged, and
whether `data`/`end` listeners were attached to the body stream. -/
structure WrapOutcome where
  progressEvents : List ProgressEvent
  warned : Bool
  handlersAttached : Bool
deriving Repr, DecidableEq

/-- Models the function returned by `wrapFetchWithProgress()` applied to
one response: on a successful response with a valid `Content-Length` it
attaches the listeners and the sink receives the processed events; with
an invalid header it logs a warning and returns the response untouched;
a non-ok response is returned untouched with no warning. The model is a
total function: this path never throws. -/
def wrapFetchWithProgress (responseOk : Bool) (header : Option String)
    (events : List StreamEvent) : WrapOutcome :=
  if responseOk = true then
    if contentLengthValid header = true then
      ⟨processEvents ((match header with
          | some s => (jsNumber s).getD 0
          | none => 0).toNat) initialProgressState events, false, true⟩
    else ⟨[], true, false⟩
  else ⟨[], false, false⟩

/-- C7: if the `Content-Length` header of a successful response is
missing, non-numeric, or negative, progress reporting is disabled for
the transfer: the validity check fails in each of the three cases, and
then the wrapper logs a warning, never invokes the progress sink, and
passes the response stream through with no listeners attached; the model
is a total function, so the condition never raises an error. -/
theorem C7_wrapFetchWithProgress_invalid_header (responseOk : Bool)
    (header : Option String) (events : List StreamEvent) :
    (header = none → contentLengthValid header = false) ∧
    (∀ s, header = some s → jsNumber s = none →
      contentLengthValid header = false) ∧
    (∀ s n, header = some s → jsNumber s = some n → n < 0 →
      contentLengthValid header = false) ∧
    (responseOk = true → contentLengthValid header = false →
      wrapFetchWithProgress responseOk header events = ⟨[], true, false⟩) := by
  refine ⟨?_, ?_, ?_, ?_⟩
  · intro h
    rw [h]
    rfl
  · intro s hs hn
    rw [hs]
    unfold contentLengthValid
    dsimp only
    by_cases he : s = ""
    · rw [if_pos he]
    · rw [if_neg he, hn]
  · intro s n hs hn hneg
    rw [hs]
    unfold contentLengthValid
    dsimp only
    by_cases he : s = ""
    · rw [if_pos he]
    · rw [if_neg he, hn]
      simp
      omega
  · intro hok hinv
    unfold wrapFetchWithProgress
    rw [if_pos hok, if_neg (by rw [hinv]; exact Bool.false_ne_true)]

/-- Witness for C7: a successful response carrying the non-numeric
header value `abc` yields no sink calls, a warning, and an unmodified
stream. -/
theorem C7_wrapFetchWithProgress_invalid_header_witness :
    wrapFetchWithProgress true (some ("abc"))
      [StreamEvent.data 5 0, StreamEvent.streamEnd 1] = ⟨[], true, false⟩ :=
  (C7_wrapFetchWithProgress_invalid_header true (some ("abc"))
    [StreamEvent.data 5 0, StreamEvent.streamEnd 1]).2.2.2 rfl
    ((C7_wrapFetchWithProgress_invalid_header true (some ("abc"))
      [StreamEvent.data 5 0, StreamEvent.streamEnd 1]).2.1 ("abc") rfl
      (by decide))
